import Mathlib

/-!
Verification of the revision & diff engine of the EthAppList backend.

The Go source under `internal/models`, `internal/repository` and
`internal/service` is shallowly embedded: `models.Product`,
`models.ProductRevision` and `models.ProductFieldChange` become Lean
structures; the PostgreSQL tables `products` and `product_revisions` become
lists inside a `DBState`; each repository or service function that the spec
talks about becomes a Lean function on `DBState` returning `Except RepoError`.
Machine floats (`float64` score fields) are embedded as rationals; `%.2f`
formatting is embedded as rounding to hundredths.  Timestamps and generated
ids are driven by a logical clock in the state.
-/

namespace EthAppList

/-- Embeds `models.Product` (internal/models/models.go).  The relationship
fields (`Categories`, `Chains`, `UpvoteCount`, …) are not persisted columns
and play no role in the revision engine, so they are omitted.  Score fields
are `float64` in Go, embedded as `ℚ`. -/
structure Product where
  id : String
  title : String
  shortDesc : String
  longDesc : String
  logoURL : String
  markdownContent : String
  submitterID : String
  approved : Bool
  isVerified : Bool
  analyticsList : List String
  securityScore : ℚ
  uxScore : ℚ
  decentScore : ℚ
  vibesScore : ℚ
  currentRevisionNumber : Int
  lastEditorID : Option String
  createdAt : Nat
  updatedAt : Nat
deriving DecidableEq, Repr

/-- Embeds `models.ProductFieldChange`. -/
structure ProductFieldChange where
  id : String
  revisionID : String
  fieldName : String
  oldValue : Option String
  newValue : Option String
  changeType : String
deriving DecidableEq, Repr

/-- Embeds a row of the `product_revisions` table together with its
`product_field_changes` rows.  `productData` is the full JSON snapshot; since
JSON (un)marshalling of `models.Product` is a bijection on the embedded
fields, the snapshot is stored as the `Product` value itself. -/
structure Revision where
  id : String
  productID : String
  revisionNumber : Int
  editorID : Option String
  editSummary : Option String
  fieldChanges : List ProductFieldChange
  productData : Product
  createdAt : Nat
deriving DecidableEq, Repr

/-- Embeds `models.RevisionSummary`. -/
structure RevisionSummary where
  revisionNumber : Int
  editSummary : Option String
  editorID : Option String
  createdAt : Nat
  changeCount : Nat
  majorChange : Bool
deriving DecidableEq, Repr

/-- Embeds `models.ProductDiff`. -/
structure ProductDiff where
  fromRevision : Int
  toRevision : Int
  changes : List ProductFieldChange
  summary : String
deriving DecidableEq, Repr

/-- Error outcomes of the repository operations.  The Go code returns
`error` values produced by `fmt.Errorf`; we classify them by cause the way
the spec's taxonomy does: `notFound` for `sql.ErrNoRows`-style lookup
failures, `conflict` for primary-key / unique-constraint violations. -/
inductive RepoError where
  | notFound : RepoError
  | conflict : RepoError
deriving DecidableEq, Repr

/-- Equality of `Except` results is decidable, so concrete runs can be
checked by evaluation. -/
instance instDecidableEqExcept {e a : Type} [DecidableEq e] [DecidableEq a] :
    DecidableEq (Except e a) := fun x y =>
  match x, y with
  | Except.ok v, Except.ok w => decidable_of_iff (v = w) (by simp)
  | Except.ok _, Except.error _ => isFalse (by simp)
  | Except.error _, Except.ok _ => isFalse (by simp)
  | Except.error v, Except.error w => decidable_of_iff (v = w) (by simp)

/-- Embeds Go `fmt.Sprintf` with verb `%.2f`: fixed two-decimal rendering of
a score.  `n` is `⌊100·q + 1/2⌋` computed on numerator and denominator
(rounding to the nearest hundredth stands in for the float-to-decimal
conversion). -/
def formatScore (q : ℚ) : String :=
  let n : Int := Int.fdiv (200 * q.num + (q.den : Int)) (2 * (q.den : Int))
  let sign := if n < 0 then "-" else ""
  let m := n.natAbs
  let whole := m / 100
  let frac := m % 100
  let fracStr := if frac < 10 then "0" ++ toString frac else toString frac
  sign ++ toString whole ++ "." ++ fracStr

/-- Embeds Go `fmt.Sprintf` with verb `%t`. -/
def formatBool (b : Bool) : String :=
  if b then "true" else "false"

/-- Embeds `json.Marshal` of a `[]string` (used for `analytics_list` in
`calculateProductDifferences`).  String escaping is elided; no claim depends
on it. -/
def marshalStringList (l : List String) : String :=
  "[" ++ String.intercalate "," (l.map (fun s => "\"" ++ s ++ "\"")) ++ "]"

/-- The `addChange` helper closed over by
`PostgresRepository.calculateProductDifferences`
(internal/repository/repository.go:1367): emits one change when the two
rendered values differ, classified `added` / `removed` / `modified` by
emptiness of the old / new value. -/
def addChange (field oldVal newVal : String) : List ProductFieldChange :=
  if oldVal = newVal then []
  else
    [{ id := ""
       revisionID := ""
       fieldName := field
       oldValue := some oldVal
       newValue := some newVal
       changeType :=
         if oldVal = "" then "added"
         else if newVal = "" then "removed"
         else "modified" }]

/-- Embeds `PostgresRepository.calculateProductDifferences`
(internal/repository/repository.go:1363-1406): the repository-layer diff,
comparing the fields in the source's order, scores under `%.2f` formatting,
booleans under `%t`, and the analytics list by JSON serialization. -/
def calculateProductDifferences (f t : Product) : List ProductFieldChange :=
  addChange "title" f.title t.title ++
  addChange "short_desc" f.shortDesc t.shortDesc ++
  addChange "long_desc" f.longDesc t.longDesc ++
  addChange "logo_url" f.logoURL t.logoURL ++
  addChange "markdown_content" f.markdownContent t.markdownContent ++
  addChange "security_score" (formatScore f.securityScore) (formatScore t.securityScore) ++
  addChange "ux_score" (formatScore f.uxScore) (formatScore t.uxScore) ++
  addChange "decent_score" (formatScore f.decentScore) (formatScore t.decentScore) ++
  addChange "vibes_score" (formatScore f.vibesScore) (formatScore t.vibesScore) ++
  addChange "is_verified" (formatBool f.isVerified) (formatBool t.isVerified) ++
  addChange "approved" (formatBool f.approved) (formatBool t.approved) ++
  addChange "analytics_list" (marshalStringList f.analyticsList) (marshalStringList t.analyticsList)

/-- The id-stamping loop at the end of `calculateProductChanges`
(internal/service/service.go:379-381): change `i` (0-based) gets id
`change_` followed by `i + 1`. -/
def stampIds : List ProductFieldChange → Nat → List ProductFieldChange
  | [], _ => []
  | c :: rest, i => { c with id := "change_" ++ toString (i + 1) } :: stampIds rest (i + 1)

/-- One unconditional-`modified` change, as built by the service-layer
`calculateProductChanges` for each differing field. -/
def serviceChange (field oldVal newVal : String) : ProductFieldChange :=
  { id := ""
    revisionID := ""
    fieldName := field
    oldValue := some oldVal
    newValue := some newVal
    changeType := "modified" }

/-- Embeds `service.calculateProductChanges`
(internal/service/service.go:285-384): the service-layer diff.  It compares
only the five text fields and the four score fields, compares scores by raw
value (emitting their `%.2f` renderings as old/new), labels every change
`modified`, and finally stamps ids `change_1`, `change_2`, … onto the
changes. -/
def calculateProductChanges (oldP newP : Product) : List ProductFieldChange :=
  let changes :=
    (if oldP.title ≠ newP.title then
      [serviceChange "title" oldP.title newP.title] else []) ++
    (if oldP.shortDesc ≠ newP.shortDesc then
      [serviceChange "short_desc" oldP.shortDesc newP.shortDesc] else []) ++
    (if oldP.longDesc ≠ newP.longDesc then
      [serviceChange "long_desc" oldP.longDesc newP.longDesc] else []) ++
    (if oldP.logoURL ≠ newP.logoURL then
      [serviceChange "logo_url" oldP.logoURL newP.logoURL] else []) ++
    (if oldP.markdownContent ≠ newP.markdownContent then
      [serviceChange "markdown_content" oldP.markdownContent newP.markdownContent] else []) ++
    (if oldP.securityScore ≠ newP.securityScore then
      [serviceChange "security_score" (formatScore oldP.securityScore) (formatScore newP.securityScore)] else []) ++
    (if oldP.uxScore ≠ newP.uxScore then
      [serviceChange "ux_score" (formatScore oldP.uxScore) (formatScore newP.uxScore)] else []) ++
    (if oldP.decentScore ≠ newP.decentScore then
      [serviceChange "decent_score" (formatScore oldP.decentScore) (formatScore newP.decentScore)] else []) ++
    (if oldP.vibesScore ≠ newP.vibesScore then
      [serviceChange "vibes_score" (formatScore oldP.vibesScore) (formatScore newP.vibesScore)] else [])
  stampIds changes 0

/-- The database state touched by the revision engine: the `products` table,
the `product_revisions` table (with its nested `product_field_changes`), and
a logical clock standing in for `time.Now()` / `generateID()`. -/
structure DBState where
  products : List Product
  revisions : List Revision
  clock : Nat
deriving DecidableEq, Repr

/-- Embeds `generateID` (internal/repository/repository.go:1002): a fresh id
derived from the current time, here the logical clock. -/
def genId (n : Nat) : String :=
  toString n

/-- The empty database. -/
def initState : DBState :=
  { products := [], revisions := [], clock := 0 }

/-- Embeds `PostgresRepository.GetProductByID` restricted to the columns the
revision engine reads: a `SELECT … FROM products WHERE id = $1`, failing like
`sql.ErrNoRows` when the product is absent. -/
def getProductByID (st : DBState) (pid : String) : Except RepoError Product :=
  match st.products.find? (fun q => decide (q.id = pid)) with
  | some p => Except.ok p
  | none => Except.error RepoError.notFound

/-- Embeds `PostgresRepository.GetProductRevision`
(internal/repository/repository.go:1237): lookup of the unique
`(product_id, revision_number)` row. -/
def getProductRevision (st : DBState) (pid : String) (n : Int) : Except RepoError Revision :=
  match st.revisions.find? (fun r => decide (r.productID = pid ∧ r.revisionNumber = n)) with
  | some r => Except.ok r
  | none => Except.error RepoError.notFound

/-- Embeds `PostgresRepository.CreateProduct`
(internal/repository/repository.go:136-254): generates an id when none is
given, stamps timestamps and `current_revision_number = 1` on the struct,
inserts the row (the primary key makes a duplicate id a conflict that rolls
the transaction back), and creates revision 1 via `createProductRevisionTx`
with `changes = nil`, i.e. zero field changes. -/
def createProduct (st : DBState) (p : Product) : Except RepoError DBState :=
  let pid := if p.id = "" then genId st.clock else p.id
  let p0 : Product :=
    { p with
      id := pid
      createdAt := st.clock
      updatedAt := st.clock
      currentRevisionNumber := 1
      lastEditorID := some p.submitterID }
  if st.products.any (fun q => decide (q.id = pid)) then Except.error RepoError.conflict
  else
    Except.ok
      { products := st.products ++ [p0]
        revisions := st.revisions ++
          [{ id := genId st.clock
             productID := pid
             revisionNumber := 1
             editorID := some p0.submitterID
             editSummary := some "Initial product version"
             fieldChanges := []
             productData := p0
             createdAt := st.clock }]
        clock := st.clock + 1 }

/-- The `UPDATE products SET …` statement inside
`PostgresRepository.CreateProductRevision`
(internal/repository/repository.go:1087-1110): overwrites the content
columns, `current_revision_number` and `last_editor_id`, but leaves
`approved`, `submitter_id` and `created_at` untouched. -/
def revisionUpdateRow (q newData : Product) (newRev : Int) (editorID : Option String) (now : Nat) : Product :=
  { q with
    title := newData.title
    shortDesc := newData.shortDesc
    longDesc := newData.longDesc
    logoURL := newData.logoURL
    markdownContent := newData.markdownContent
    isVerified := newData.isVerified
    analyticsList := newData.analyticsList
    securityScore := newData.securityScore
    uxScore := newData.uxScore
    decentScore := newData.decentScore
    vibesScore := newData.vibesScore
    currentRevisionNumber := newRev
    lastEditorID := editorID
    updatedAt := now }

/-- Embeds `PostgresRepository.CreateProductRevision`
(internal/repository/repository.go:1060-1121): reads the product's current
revision number, appends revision `current + 1` carrying the snapshot and
the given field changes (row ids for the change rows are generated and not
modeled), and updates the product row.  There is no emptiness check on
`changes`. -/
def createProductRevision (st : DBState) (pid : String) (editorID editSummary : Option String)
    (changes : List ProductFieldChange) (newData : Product) : Except RepoError DBState :=
  match st.products.find? (fun q => decide (q.id = pid)) with
  | none => Except.error RepoError.notFound
  | some cur =>
    let newRev := cur.currentRevisionNumber + 1
    Except.ok
      { products := st.products.map
          (fun q => if q.id = pid then revisionUpdateRow q newData newRev editorID st.clock else q)
        revisions := st.revisions ++
          [{ id := genId st.clock
             productID := pid
             revisionNumber := newRev
             editorID := editorID
             editSummary := editSummary
             fieldChanges := changes
             productData := newData
             createdAt := st.clock }]
        clock := st.clock + 1 }

/-- The `UPDATE products SET …` of `PostgresRepository.UpdateProduct`
(internal/repository/repository.go:1501-1537): overwrites the content
columns, `approved`, `current_revision_number` and `last_editor_id` from the
given struct. -/
def fullUpdateRow (q p : Product) (now : Nat) : Product :=
  { q with
    title := p.title
    shortDesc := p.shortDesc
    longDesc := p.longDesc
    logoURL := p.logoURL
    markdownContent := p.markdownContent
    approved := p.approved
    isVerified := p.isVerified
    analyticsList := p.analyticsList
    securityScore := p.securityScore
    uxScore := p.uxScore
    decentScore := p.decentScore
    vibesScore := p.vibesScore
    currentRevisionNumber := p.currentRevisionNumber
    lastEditorID := p.lastEditorID
    updatedAt := now }

/-- Embeds `PostgresRepository.UpdateProduct`: a bare row update, no error
when the row is missing (`Exec` ignores the affected-row count). -/
def repoUpdateProduct (st : DBState) (p : Product) : DBState :=
  { st with
    products := st.products.map (fun q => if q.id = p.id then fullUpdateRow q p st.clock else q)
    clock := st.clock + 1 }

/-- Embeds `Service.UpdateProduct` (internal/service/service.go:252-282):
loads the current product, computes the service-layer diff, creates a
revision unconditionally, then writes the product again with the bumped
revision number.  `minorEdit` is accepted and unused, as in the source. -/
def serviceUpdateProduct (st : DBState) (p : Product) (editorID editSummary : String)
    (minorEdit : Bool) : Except RepoError DBState := do
  let cur ← getProductByID st p.id
  let changes := calculateProductChanges cur p
  let st2 ← createProductRevision st p.id (some editorID) (some editSummary) changes p
  let p2 := { p with currentRevisionNumber := cur.currentRevisionNumber + 1
                     lastEditorID := some editorID }
  Except.ok (repoUpdateProduct st2 p2)

/-- Embeds the `product` / `create` branch of
`PostgresRepository.ApproveEdit` (internal/repository/repository.go:757-814)
after the pending edit's change data has been decoded: forces
`approved = true` and revision number 1, overrides the id with the edit's
entity id when present, inserts the row (duplicate id conflicts and rolls
back) and creates baseline revision 1 with zero field changes. -/
def approveEditCreate (st : DBState) (changeData : Product) (entityID : String) :
    Except RepoError DBState :=
  let p0 : Product := { changeData with approved := true, currentRevisionNumber := 1 }
  let p1 : Product := if entityID ≠ "" then { p0 with id := entityID } else p0
  if st.products.any (fun q => decide (q.id = p1.id)) then Except.error RepoError.conflict
  else
    Except.ok
      { products := st.products ++
          [{ p1 with lastEditorID := some p1.submitterID, createdAt := st.clock, updatedAt := st.clock }]
        revisions := st.revisions ++
          [{ id := genId st.clock
             productID := p1.id
             revisionNumber := 1
             editorID := some p1.submitterID
             editSummary := some "Initial product version (approved edit)"
             fieldChanges := []
             productData := p1
             createdAt := st.clock }]
        clock := st.clock + 1 }

/-- The `UPDATE products SET …` of the `product` / `update` branch of
`ApproveEdit` (internal/repository/repository.go:882-905): like
`revisionUpdateRow` but also forces `approved = true`. -/
def approveUpdateRow (q newP : Product) (userID : String) (now : Nat) : Product :=
  { q with
    title := newP.title
    shortDesc := newP.shortDesc
    longDesc := newP.longDesc
    logoURL := newP.logoURL
    markdownContent := newP.markdownContent
    approved := true
    isVerified := newP.isVerified
    analyticsList := newP.analyticsList
    securityScore := newP.securityScore
    uxScore := newP.uxScore
    decentScore := newP.decentScore
    vibesScore := newP.vibesScore
    currentRevisionNumber := newP.currentRevisionNumber
    lastEditorID := some userID
    updatedAt := now }

/-- Embeds the `product` / `update` branch of `PostgresRepository.ApproveEdit`
(internal/repository/repository.go:816-909): loads the current row, builds
the new product from the decoded change data with `approved = true` and
revision number `current + 1`, computes the repository-layer diff, derives
the edit summary from the changed field names, appends the revision and
updates the row. -/
def approveEditUpdate (st : DBState) (entityID : String) (changeData : Product) (userID : String) :
    Except RepoError DBState :=
  match st.products.find? (fun q => decide (q.id = entityID)) with
  | none => Except.error RepoError.notFound
  | some cur =>
    let newP : Product :=
      { changeData with
        id := entityID
        approved := true
        currentRevisionNumber := cur.currentRevisionNumber + 1
        lastEditorID := some userID
        updatedAt := st.clock }
    let changes := calculateProductDifferences cur newP
    let summary :=
      if changes.isEmpty then "Product update (approved edit)"
      else "Updated " ++ String.intercalate ", " (changes.map (fun c => c.fieldName))
    Except.ok
      { products := st.products.map
          (fun q => if q.id = entityID then approveUpdateRow q newP userID st.clock else q)
        revisions := st.revisions ++
          [{ id := genId st.clock
             productID := entityID
             revisionNumber := cur.currentRevisionNumber + 1
             editorID := some userID
             editSummary := some summary
             fieldChanges := changes
             productData := newP
             createdAt := st.clock }]
        clock := st.clock + 1 }

/-- Embeds `PostgresRepository.CompareProductRevisions`
(internal/repository/repository.go:1325-1360): loads the two snapshots in
the caller-supplied order, runs the repository-layer diff on them, and
formats the `"N field(s) changed"` summary. -/
def compareProductRevisions (st : DBState) (pid : String) (fromRev toRev : Int) :
    Except RepoError ProductDiff := do
  let f ← getProductRevision st pid fromRev
  let t ← getProductRevision st pid toRev
  let changes := calculateProductDifferences f.productData t.productData
  Except.ok
    { fromRevision := fromRev
      toRevision := toRev
      changes := changes
      summary := toString changes.length ++ " field(s) changed" }

/-- Embeds `PostgresRepository.RevertProductToRevision`
(internal/repository/repository.go:1409-1442): loads the target revision's
snapshot and the current product, diffs current against target, synthesizes
the revert summary, and creates a forward revision whose content is the
target snapshot. -/
def revertProductToRevision (st : DBState) (pid : String) (revisionNumber : Int)
    (editorID : Option String) (reason : String) : Except RepoError DBState := do
  let target ← getProductRevision st pid revisionNumber
  let targetProduct := target.productData
  let cur ← getProductByID st pid
  let changes := calculateProductDifferences cur targetProduct
  let editSummary := "Reverted to revision " ++ toString revisionNumber ++ ": " ++ reason
  createProductRevision st pid editorID (some editSummary) changes targetProduct

/-- Projection of a revision row to `models.RevisionSummary` as built by the
scan loops of `GetProductRevisions` / `GetRecentEdits`: the change count is
the number of `product_field_changes` rows, and `major_change` is
`changeCount > 2` (repository.go:1228, 1493). -/
def toSummary (r : Revision) : RevisionSummary :=
  { revisionNumber := r.revisionNumber
    editSummary := r.editSummary
    editorID := r.editorID
    createdAt := r.createdAt
    changeCount := r.fieldChanges.length
    majorChange := decide (r.fieldChanges.length > 2) }

/-- The `ORDER BY pr.created_at DESC` ordering: `a` is at least as recent as
`b`. -/
def revNewer (a b : Revision) : Prop :=
  b.createdAt ≤ a.createdAt

instance instDecidableRevNewer : DecidableRel revNewer :=
  fun a b => Nat.decLe b.createdAt a.createdAt

instance instIsTotalRevNewer : IsTotal Revision revNewer :=
  ⟨fun a b => le_total b.createdAt a.createdAt⟩

instance instIsTransRevNewer : IsTrans Revision revNewer :=
  ⟨fun _ _ _ h1 h2 => le_trans h2 h1⟩

/-- The `ORDER BY pr.created_at DESC LIMIT $1` of
`PostgresRepository.GetRecentEdits` (internal/repository/repository.go:1446-
1455), as sorting the revision table newest-first and taking the limit. -/
def recentRevisions (st : DBState) (limit : Int) : List Revision :=
  (st.revisions.insertionSort revNewer).take limit.toNat

/-- Embeds `PostgresRepository.GetRecentEdits` =
`Service.GetRecentEdits` (the service forwards unchanged,
internal/service/service.go:183-185). -/
def getRecentEdits (st : DBState) (limit : Int) : List RevisionSummary :=
  (recentRevisions st limit).map toSummary

/-- The limit policy of `Handler.GetRecentEdits`
(internal/handlers/handlers.go:537-565): default 50; a parsed caller limit
is honored only when `0 < limit ≤ 200`, otherwise the default applies.
`none` stands for an absent or unparseable `limit` query parameter. -/
def handlerLimit (l : Option Int) : Int :=
  match l with
  | none => 50
  | some v => if 0 < v ∧ v ≤ 200 then v else 50

/-- Embeds `Handler.GetRecentEdits`: the recent-edits feed as served over
HTTP, with the clamped limit. -/
def handlerGetRecentEdits (st : DBState) (l : Option Int) : List RevisionSummary :=
  getRecentEdits st (handlerLimit l)

/-- The write operations of the revision engine, for reasoning about
arbitrary operation sequences. -/
inductive Op where
  | create (p : Product) : Op
  | createRevision (pid : String) (editorID editSummary : Option String)
      (changes : List ProductFieldChange) (newData : Product) : Op
  | update (p : Product) (editorID editSummary : String) (minorEdit : Bool) : Op
  | approveCreate (changeData : Product) (entityID : String) : Op
  | approveUpdate (entityID : String) (changeData : Product) (userID : String) : Op
  | revert (pid : String) (revisionNumber : Int) (editorID : Option String) (reason : String) : Op

/-- Dispatches one operation to its embedded implementation. -/
def execOp (st : DBState) : Op → Except RepoError DBState
  | Op.create p => createProduct st p
  | Op.createRevision pid e s c d => createProductRevision st pid e s c d
  | Op.update p e s m => serviceUpdateProduct st p e s m
  | Op.approveCreate cd eid => approveEditCreate st cd eid
  | Op.approveUpdate eid cd uid => approveEditUpdate st eid cd uid
  | Op.revert pid n e r => revertProductToRevision st pid n e r

/-- A failed operation rolls its transaction back and leaves the database
unchanged; a successful one commits.  Folding this over a list of operations
therefore realizes exactly the successful subsequence. -/
def applyOp (st : DBState) (op : Op) : DBState :=
  match execOp st op with
  | Except.ok st2 => st2
  | Except.error _ => st

/-- Runs a sequence of operations from a starting state. -/
def execOps (st : DBState) (ops : List Op) : DBState :=
  ops.foldl applyOp st

/-- A revision numbered `n` is stored for product `pid`. -/
def hasRev (revs : List Revision) (pid : String) (n : Int) : Prop :=
  ∃ r ∈ revs, r.productID = pid ∧ r.revisionNumber = n

instance instDecidableHasRev (revs : List Revision) (pid : String) (n : Int) :
    Decidable (hasRev revs pid n) := by
  unfold hasRev
  infer_instance

/-- Well-formedness of the database: product ids are unique, every product's
current revision number is at least 1, every revision belongs to an existing
product, the revision numbers stored for a product are exactly
`{1, …, current_revision_number}`, and `(product_id, revision_number)` pairs
are unique (the `UNIQUE(product_id, revision_number)` constraint of the
migration). -/
structure WF (st : DBState) : Prop where
  nodupIds : st.products.Pairwise (fun a b => a.id ≠ b.id)
  currentPos : ∀ p ∈ st.products, 1 ≤ p.currentRevisionNumber
  revProduct : ∀ r ∈ st.revisions, ∃ p ∈ st.products, p.id = r.productID
  revRange : ∀ p ∈ st.products, ∀ n : Int,
    hasRev st.revisions p.id n ↔ 1 ≤ n ∧ n ≤ p.currentRevisionNumber
  revUnique : st.revisions.Pairwise
    (fun a b => a.productID = b.productID → a.revisionNumber ≠ b.revisionNumber)

theorem wf_initState : WF initState := by
  constructor <;> simp [initState, hasRev]

theorem product_eq_of_id_eq {st : DBState} (h : WF st) {p q : Product}
    (hp : p ∈ st.products) (hq : q ∈ st.products) (hid : p.id = q.id) : p = q := by
  by_contra hne
  exact (h.nodupIds.forall (fun a b hab => fun hba => hab hba.symm) hp hq hne) hid

theorem find?_product {st : DBState} {pid : String} {cur : Product}
    (h : st.products.find? (fun q => decide (q.id = pid)) = some cur) :
    cur ∈ st.products ∧ cur.id = pid := by
  refine ⟨List.mem_of_find?_eq_some h, ?_⟩
  have h2 := List.find?_some h
  simpa using h2

theorem hasRev_append {revs : List Revision} {rev : Revision} {pid : String} {n : Int} :
    hasRev (revs ++ [rev]) pid n ↔
      hasRev revs pid n ∨ (rev.productID = pid ∧ rev.revisionNumber = n) := by
  constructor
  · rintro ⟨r, hr, h1, h2⟩
    rcases List.mem_append.mp hr with hr | hr
    · exact Or.inl ⟨r, hr, h1, h2⟩
    · simp only [List.mem_singleton] at hr
      subst hr
      exact Or.inr ⟨h1, h2⟩
  · rintro (⟨r, hr, h1, h2⟩ | ⟨h1, h2⟩)
    · exact ⟨r, List.mem_append_left _ hr, h1, h2⟩
    · exact ⟨rev, List.mem_append_right _ (by simp), h1, h2⟩

/-- Inserting a product with a fresh id at `current_revision_number = 1`
together with its baseline revision preserves well-formedness. -/
theorem WF_insert {st : DBState} (h : WF st) {p0 : Product} {rev : Revision} {clock2 : Nat}
    (hid : ∀ q ∈ st.products, ¬ q.id = p0.id)
    (hcur : p0.currentRevisionNumber = 1)
    (hrpid : rev.productID = p0.id) (hrnum : rev.revisionNumber = 1) :
    WF { products := st.products ++ [p0], revisions := st.revisions ++ [rev], clock := clock2 } := by
  have hfresh : ∀ n : Int, ¬ hasRev st.revisions p0.id n := by
    rintro n ⟨r, hr, hrid, -⟩
    obtain ⟨q, hq, hqid⟩ := h.revProduct r hr
    exact hid q hq (hqid.trans hrid)
  constructor
  · dsimp only
    rw [List.pairwise_append]
    refine ⟨h.nodupIds, by simp, ?_⟩
    intro a ha b hb
    simp only [List.mem_singleton] at hb
    subst hb
    exact hid a ha
  · dsimp only
    intro p hp
    rcases List.mem_append.mp hp with hp | hp
    · exact h.currentPos p hp
    · simp only [List.mem_singleton] at hp
      subst hp
      omega
  · dsimp only
    intro r hr
    rcases List.mem_append.mp hr with hr | hr
    · obtain ⟨q, hq, hqid⟩ := h.revProduct r hr
      exact ⟨q, List.mem_append_left _ hq, hqid⟩
    · simp only [List.mem_singleton] at hr
      subst hr
      exact ⟨p0, List.mem_append_right _ (by simp), hrpid.symm⟩
  · dsimp only
    intro p hp n
    rcases List.mem_append.mp hp with hp | hp
    · have hne : ¬ p.id = p0.id := hid p hp
      rw [hasRev_append]
      constructor
      · rintro (hrv | ⟨h1, -⟩)
        · exact (h.revRange p hp n).mp hrv
        · exact absurd (hrpid ▸ h1 : p0.id = p.id) (fun he => hne he.symm)
      · intro hn
        exact Or.inl ((h.revRange p hp n).mpr hn)
    · simp only [List.mem_singleton] at hp
      subst hp
      rw [hasRev_append]
      constructor
      · rintro (hrv | ⟨-, h2⟩)
        · exact absurd hrv (hfresh n)
        · omega
      · intro hn
        have : n = 1 := by omega
        exact Or.inr ⟨hrpid, by omega⟩
  · dsimp only
    rw [List.pairwise_append]
    refine ⟨h.revUnique, by simp, ?_⟩
    intro a ha b hb
    simp only [List.mem_singleton] at hb
    subst hb
    intro hpid
    exfalso
    exact hfresh a.revisionNumber ⟨a, ha, hpid.trans hrpid, rfl⟩

/-- Appending revision `current + 1` for product `pid` while bumping that
product's `current_revision_number` to `current + 1` (as the update paths
do) preserves well-formedness. -/
theorem WF_bump {st : DBState} (h : WF st) {pid : String} {cur : Product}
    (hfind : st.products.find? (fun q => decide (q.id = pid)) = some cur)
    {f : Product → Product}
    (hfid : ∀ q, (f q).id = q.id)
    (hfcur : ∀ q, (f q).currentRevisionNumber = cur.currentRevisionNumber + 1)
    {rev : Revision} (hrpid : rev.productID = pid)
    (hrnum : rev.revisionNumber = cur.currentRevisionNumber + 1) {clock2 : Nat} :
    WF { products := st.products.map (fun q => if q.id = pid then f q else q)
         revisions := st.revisions ++ [rev]
         clock := clock2 } := by
  obtain ⟨hcmem, hcid⟩ := find?_product hfind
  have hgid : ∀ q : Product, (if q.id = pid then f q else q).id = q.id := by
    intro q
    by_cases hq : q.id = pid
    · simp [hq, hfid]
    · simp [hq]
  have hbound : ∀ r ∈ st.revisions, r.productID = pid →
      1 ≤ r.revisionNumber ∧ r.revisionNumber ≤ cur.currentRevisionNumber := by
    intro r hr hrid
    exact (h.revRange cur hcmem r.revisionNumber).mp ⟨r, hr, by rw [hrid, hcid], rfl⟩
  have hcpos := h.currentPos cur hcmem
  constructor
  · dsimp only
    rw [List.pairwise_map]
    refine h.nodupIds.imp ?_
    intro a b hab
    rw [hgid, hgid]
    exact hab
  · dsimp only
    intro p hp
    obtain ⟨q, hq, hgq⟩ := List.mem_map.mp hp
    subst hgq
    by_cases hqid : q.id = pid
    · simp only [hqid, if_pos]
      rw [hfcur]
      omega
    · simp only [hqid, if_neg, not_false_iff]
      exact h.currentPos q hq
  · dsimp only
    intro r hr
    rcases List.mem_append.mp hr with hr | hr
    · obtain ⟨q, hq, hqid⟩ := h.revProduct r hr
      refine ⟨if q.id = pid then f q else q, List.mem_map.mpr ⟨q, hq, rfl⟩, ?_⟩
      rw [hgid]
      exact hqid
    · simp only [List.mem_singleton] at hr
      subst hr
      refine ⟨if cur.id = pid then f cur else cur, List.mem_map.mpr ⟨cur, hcmem, rfl⟩, ?_⟩
      rw [hgid, hcid, hrpid]
  · dsimp only
    intro p hp n
    obtain ⟨q, hq, hgq⟩ := List.mem_map.mp hp
    subst hgq
    by_cases hqid : q.id = pid
    · have hqcur : q = cur := product_eq_of_id_eq h hq hcmem (hqid.trans hcid.symm)
      simp only [hqid, if_pos]
      rw [hfid, hqid, hasRev_append, hfcur]
      have hold := fun m => h.revRange q hq m
      rw [hqid] at hold
      have hqc : q.currentRevisionNumber = cur.currentRevisionNumber := by rw [hqcur]
      constructor
      · rintro (hrv | ⟨-, h2⟩)
        · have := (hold n).mp hrv
          omega
        · omega
      · intro hn
        by_cases htop : n = cur.currentRevisionNumber + 1
        · exact Or.inr ⟨hrpid, by omega⟩
        · exact Or.inl ((hold n).mpr (by omega))
    · simp only [hqid, if_neg, not_false_iff]
      rw [hasRev_append]
      constructor
      · rintro (hrv | ⟨h1, -⟩)
        · exact (h.revRange q hq n).mp hrv
        · exact absurd (h1.symm.trans hrpid) hqid
      · intro hn
        exact Or.inl ((h.revRange q hq n).mpr hn)
  · dsimp only
    rw [List.pairwise_append]
    refine ⟨h.revUnique, by simp, ?_⟩
    intro a ha b hb
    simp only [List.mem_singleton] at hb
    subst hb
    intro hpid
    have := hbound a ha (hpid.trans hrpid)
    omega

/-- A product-table rewrite that keeps every row's id and
`current_revision_number` (the trailing `UpdateProduct` call of
`Service.UpdateProduct`) preserves well-formedness. -/
theorem WF_mapNeutral {st : DBState} (h : WF st) {g : Product → Product} {clock2 : Nat}
    (hg : ∀ q ∈ st.products, (g q).id = q.id ∧
      (g q).currentRevisionNumber = q.currentRevisionNumber) :
    WF { products := st.products.map g
         revisions := st.revisions
         clock := clock2 } := by
  constructor
  · dsimp only
    rw [List.pairwise_map]
    refine h.nodupIds.imp_of_mem ?_
    intro a b ha hb hab
    rw [(hg a ha).1, (hg b hb).1]
    exact hab
  · dsimp only
    intro p hp
    obtain ⟨q, hq, hgq⟩ := List.mem_map.mp hp
    subst hgq
    rw [(hg q hq).2]
    exact h.currentPos q hq
  · dsimp only
    intro r hr
    obtain ⟨q, hq, hqid⟩ := h.revProduct r hr
    exact ⟨g q, List.mem_map.mpr ⟨q, hq, rfl⟩, by rw [(hg q hq).1]; exact hqid⟩
  · dsimp only
    intro p hp n
    obtain ⟨q, hq, hgq⟩ := List.mem_map.mp hp
    subst hgq
    rw [(hg q hq).1, (hg q hq).2]
    exact h.revRange q hq n
  · dsimp only
    exact h.revUnique

theorem createProduct_WF {st st2 : DBState} {p : Product} (h : WF st)
    (hok : createProduct st p = Except.ok st2) : WF st2 := by
  simp only [createProduct] at hok
  split at hok <;> split at hok <;> simp at hok
  all_goals
    subst hok
    refine WF_insert h ?_ rfl rfl rfl
    intro q hq hqid
    rename_i hany
    rw [List.any_eq_true] at hany
    exact hany ⟨q, hq, by simpa using hqid⟩

theorem approveEditCreate_WF {st st2 : DBState} {cd : Product} {eid : String} (h : WF st)
    (hok : approveEditCreate st cd eid = Except.ok st2) : WF st2 := by
  simp only [approveEditCreate] at hok
  split at hok <;> split at hok <;> simp at hok
  all_goals
    subst hok
    refine WF_insert h ?_ rfl rfl rfl
    intro q hq hqid
    rename_i hany
    rw [List.any_eq_true] at hany
    exact hany ⟨q, hq, by simpa using hqid⟩

theorem createProductRevision_WF {st st2 : DBState} {pid : String}
    {e s : Option String} {c : List ProductFieldChange} {d : Product} (h : WF st)
    (hok : createProductRevision st pid e s c d = Except.ok st2) : WF st2 := by
  simp only [createProductRevision] at hok
  split at hok
  · exact absurd hok (by simp)
  · rename_i cur hfind
    injection hok with hok
    subst hok
    refine WF_bump h hfind ?_ ?_ ?_ ?_
    · intro q
      rfl
    · intro q
      rfl
    · rfl
    · rfl

theorem approveEditUpdate_WF {st st2 : DBState} {eid : String} {cd : Product} {uid : String}
    (h : WF st) (hok : approveEditUpdate st eid cd uid = Except.ok st2) : WF st2 := by
  simp only [approveEditUpdate] at hok
  split at hok
  · exact absurd hok (by simp)
  · rename_i cur hfind
    injection hok with hok
    subst hok
    refine WF_bump h hfind ?_ ?_ ?_ ?_
    · intro q
      rfl
    · intro q
      rfl
    · rfl
    · rfl

/-- `PostgresRepository.UpdateProduct` preserves well-formedness whenever
the written struct carries the revision number the matching row already
has. -/
theorem repoUpdateProduct_WF {st : DBState} {p : Product} (h : WF st)
    (hcur : ∀ q ∈ st.products, q.id = p.id →
      q.currentRevisionNumber = p.currentRevisionNumber) :
    WF (repoUpdateProduct st p) := by
  unfold repoUpdateProduct
  refine WF_mapNeutral h ?_
  intro q hq
  by_cases hqid : q.id = p.id
  · rw [if_pos hqid]
    exact ⟨rfl, (hcur q hq hqid).symm⟩
  · rw [if_neg hqid]
    exact ⟨rfl, rfl⟩

theorem serviceUpdateProduct_WF {st st2 : DBState} {p : Product} {e s : String} {m : Bool}
    (h : WF st) (hok : serviceUpdateProduct st p e s m = Except.ok st2) : WF st2 := by
  cases hfind : st.products.find? (fun q => decide (q.id = p.id)) with
  | none =>
    simp [serviceUpdateProduct, getProductByID, hfind, createProductRevision, bind,
      Except.bind] at hok
  | some cur =>
    simp only [serviceUpdateProduct, getProductByID, hfind, createProductRevision, bind,
      Except.bind, Except.ok.injEq] at hok
    subst hok
    apply repoUpdateProduct_WF
    · refine WF_bump h hfind ?_ ?_ ?_ ?_ <;> intros <;> rfl
    · intro q2 hq2 hq2id
      obtain ⟨q, hq, hgq⟩ := List.mem_map.mp hq2
      by_cases hqid : q.id = p.id
      · subst hgq
        simp only [hqid, if_pos]
        rfl
      · subst hgq
        simp only [hqid, if_neg, not_false_iff] at hq2id

theorem revertProductToRevision_WF {st st2 : DBState} {pid : String} {n : Int}
    {e : Option String} {reason : String} (h : WF st)
    (hok : revertProductToRevision st pid n e reason = Except.ok st2) : WF st2 := by
  cases htar : getProductRevision st pid n with
  | error err => simp [revertProductToRevision, htar, bind, Except.bind] at hok
  | ok target =>
    cases hcur : getProductByID st pid with
    | error err => simp [revertProductToRevision, htar, hcur, bind, Except.bind] at hok
    | ok cur =>
      simp only [revertProductToRevision, htar, hcur, bind, Except.bind] at hok
      exact createProductRevision_WF h hok

theorem execOp_WF {st st2 : DBState} {op : Op} (h : WF st)
    (hok : execOp st op = Except.ok st2) : WF st2 := by
  cases op with
  | create p => exact createProduct_WF h hok
  | createRevision pid e s c d => exact createProductRevision_WF h hok
  | update p e s m => exact serviceUpdateProduct_WF (m := m) h hok
  | approveCreate cd eid => exact approveEditCreate_WF h hok
  | approveUpdate eid cd uid => exact approveEditUpdate_WF h hok
  | revert pid n e r => exact revertProductToRevision_WF h hok

theorem applyOp_WF {st : DBState} (h : WF st) (op : Op) : WF (applyOp st op) := by
  unfold applyOp
  cases hok : execOp st op with
  | ok st2 => exact execOp_WF h hok
  | error e => exact h

theorem execOps_WF {st : DBState} (h : WF st) (ops : List Op) : WF (execOps st ops) := by
  induction ops generalizing st with
  | nil => exact h
  | cons op ops ih => exact ih (applyOp_WF h op)

/-- A sample product submission, used to instantiate the theorems below. -/
def sampleProduct : Product :=
  { id := "p1"
    title := "Alpha"
    shortDesc := "s"
    longDesc := "l"
    logoURL := "u"
    markdownContent := "m"
    submitterID := "u1"
    approved := true
    isVerified := false
    analyticsList := []
    securityScore := mkRat 1 2
    uxScore := mkRat 1 2
    decentScore := mkRat 1 2
    vibesScore := mkRat 1 2
    currentRevisionNumber := 0
    lastEditorID := none
    createdAt := 0
    updatedAt := 0 }

/-- The database after `CreateProduct(sampleProduct)`. -/
def sampleState : DBState :=
  execOps initState [Op.create sampleProduct]

/-- The stored row of `sampleProduct` after creation. -/
def sampleCreated : Product :=
  { sampleProduct with currentRevisionNumber := 1, lastEditorID := some "u1" }


/-- C2: after any sequence of successful CreateProduct,
CreateProductRevision, UpdateProduct, ApproveEdit and
RevertProductToRevision operations, every product's stored revision numbers
are exactly `{1, …, current_revision_number}` with no gaps, and
`current_revision_number` is attained as the maximum stored revision
number. -/
theorem c2_revision_contiguity (ops : List Op) :
    ∀ p ∈ (execOps initState ops).products,
      (∀ n : Int, hasRev (execOps initState ops).revisions p.id n ↔
        1 ≤ n ∧ n ≤ p.currentRevisionNumber) ∧
      hasRev (execOps initState ops).revisions p.id p.currentRevisionNumber ∧
      (∀ r ∈ (execOps initState ops).revisions, r.productID = p.id →
        r.revisionNumber ≤ p.currentRevisionNumber) := by
  intro p hp
  have h := execOps_WF wf_initState ops
  refine ⟨h.revRange p hp, ?_, ?_⟩
  · exact (h.revRange p hp _).mpr ⟨h.currentPos p hp, le_refl _⟩
  · intro r hr hrid
    exact ((h.revRange p hp r.revisionNumber).mp ⟨r, hr, hrid, rfl⟩).2

theorem c2_revision_contiguity_witness :
    hasRev sampleState.revisions sampleCreated.id sampleCreated.currentRevisionNumber :=
  (c2_revision_contiguity [Op.create sampleProduct] sampleCreated (by decide)).2.1

/-- C1 (amended): the update path (`Service.UpdateProduct` /
`CreateProductRevision`) always appends exactly one new revision — numbered
`current + 1` and carrying the (possibly empty) service-layer change set —
and bumps the product's `current_revision_number`, even when the proposed
state equals the current state. -/
theorem c1_update_always_appends (st : DBState) (p : Product) (e s : String) (m : Bool)
    (cur : Product)
    (hfind : st.products.find? (fun q => decide (q.id = p.id)) = some cur) :
    ∃ st2, serviceUpdateProduct st p e s m = Except.ok st2 ∧
      st2.revisions = st.revisions ++
        [{ id := genId st.clock
           productID := p.id
           revisionNumber := cur.currentRevisionNumber + 1
           editorID := some e
           editSummary := some s
           fieldChanges := calculateProductChanges cur p
           productData := p
           createdAt := st.clock }] ∧
      (∀ q2 ∈ st2.products, q2.id = p.id →
        q2.currentRevisionNumber = cur.currentRevisionNumber + 1) := by
  simp only [serviceUpdateProduct, getProductByID, hfind, createProductRevision, bind,
    Except.bind]
  refine ⟨_, rfl, rfl, ?_⟩
  intro q2 hq2 hq2id
  obtain ⟨q1, hq1, hgq⟩ := List.mem_map.mp hq2
  obtain ⟨q0, hq0, hfq⟩ := List.mem_map.mp hq1
  by_cases hqid : q0.id = p.id
  · subst hgq
    subst hfq
    rw [if_pos hqid]
    have hid2 : (revisionUpdateRow q0 p (cur.currentRevisionNumber + 1) (some e) st.clock).id
        = p.id := hqid
    rw [if_pos hid2]
    rfl
  · subst hgq
    subst hfq
    rw [if_neg hqid] at hq2id ⊢
    rw [if_neg hqid] at hq2id ⊢
    exact absurd hq2id hqid

theorem c1_update_always_appends_witness :
    ∃ st2, serviceUpdateProduct sampleState sampleCreated "u1" "no-op" false = Except.ok st2 ∧
      st2.revisions = sampleState.revisions ++
        [{ id := genId sampleState.clock
           productID := sampleCreated.id
           revisionNumber := sampleCreated.currentRevisionNumber + 1
           editorID := some "u1"
           editSummary := some "no-op"
           fieldChanges := calculateProductChanges sampleCreated sampleCreated
           productData := sampleCreated
           createdAt := sampleState.clock }] ∧
      (∀ q2 ∈ st2.products, q2.id = sampleCreated.id →
        q2.currentRevisionNumber = sampleCreated.currentRevisionNumber + 1) :=
  c1_update_always_appends sampleState sampleCreated "u1" "no-op" false sampleCreated
    (by decide)

/-- C1 as stated is false on the code: updating `p1` with exactly its
current state yields an empty change set, yet a second revision is created
and `current_revision_number` moves from 1 to 2. -/
theorem c1_counterexample :
    calculateProductChanges sampleCreated sampleCreated = [] ∧
    Except.map (fun st2 => (st2.revisions.length, getProductByID st2 "p1"))
      (serviceUpdateProduct sampleState sampleCreated "u1" "no-op" false) =
      Except.ok (2, Except.ok
        { sampleCreated with currentRevisionNumber := 2, updatedAt := 2 }) ∧
    sampleState.revisions.length = 1 ∧
    getProductByID sampleState "p1" = Except.ok sampleCreated := by
  refine ⟨by decide, by decide, by decide, by decide⟩

theorem getProductByID_ok {st : DBState} {pid : String} {cur : Product}
    (h : getProductByID st pid = Except.ok cur) :
    st.products.find? (fun q => decide (q.id = pid)) = some cur := by
  unfold getProductByID at h
  split at h
  · rename_i p heq
    injection h with h
    subst h
    exact heq
  · exact absurd h (by simp)

theorem getProductRevision_ok {st : DBState} {pid : String} {n : Int} {tgt : Revision}
    (h : getProductRevision st pid n = Except.ok tgt) :
    st.revisions.find? (fun r => decide (r.productID = pid ∧ r.revisionNumber = n))
      = some tgt ∧ tgt.productID = pid ∧ tgt.revisionNumber = n := by
  unfold getProductRevision at h
  split at h
  · rename_i r heq
    injection h with h
    subst h
    refine ⟨heq, ?_⟩
    have h2 := List.find?_some heq
    simpa using h2
  · exact absurd h (by simp)

theorem find?_append_one {α : Type} (l : List α) (x : α) (p : α → Bool) :
    (l ++ [x]).find? p = ((l.find? p).orElse (fun _ => [x].find? p)) := by
  induction l with
  | nil => rfl
  | cons a l ih =>
    by_cases h : p a
    · simp [List.find?_cons, h]
    · simp [List.find?_cons, h, ih]

/-- Appending one revision row leaves every `(product_id, revision_number)`
lookup that does not match the new row unchanged. -/
theorem getProductRevision_append {st : DBState} {rev : Revision} {alt : List Product}
    {c : Nat} (pid : String) (j : Int)
    (h : ¬(rev.productID = pid ∧ rev.revisionNumber = j)) :
    getProductRevision { products := alt, revisions := st.revisions ++ [rev], clock := c }
      pid j = getProductRevision st pid j := by
  unfold getProductRevision
  dsimp only
  rw [find?_append_one]
  cases hf : List.find? (fun r => decide (r.productID = pid ∧ r.revisionNumber = j))
      st.revisions with
  | some r => simp [Option.orElse, hf]
  | none =>
    have hx : decide (rev.productID = pid ∧ rev.revisionNumber = j) = false :=
      decide_eq_false h
    simp [Option.orElse, hf, List.find?, hx]

/-- C3: on a product whose current revision is `N`,
`RevertProductToRevision(productID, k, editor, reason)` with an existing
target revision `k` appends revision `N + 1` whose stored snapshot is
exactly revision `k`'s snapshot and whose summary is
`"Reverted to revision {k}: {reason}"`, while every previously stored
revision row is kept and every lookup of a revision other than `N + 1` is
unchanged. -/
theorem c3_revert_forward (st : DBState) (pid : String) (k : Int) (e : Option String)
    (reason : String) (tgt : Revision) (cur : Product)
    (htar : getProductRevision st pid k = Except.ok tgt)
    (hcur : getProductByID st pid = Except.ok cur) :
    ∃ st2, revertProductToRevision st pid k e reason = Except.ok st2 ∧
      ∃ rev, st2.revisions = st.revisions ++ [rev] ∧
        rev.revisionNumber = cur.currentRevisionNumber + 1 ∧
        rev.productData = tgt.productData ∧
        rev.editSummary = some ("Reverted to revision " ++ toString k ++ ": " ++ reason) ∧
        rev.fieldChanges = calculateProductDifferences cur tgt.productData ∧
        (∀ j : Int, j ≠ cur.currentRevisionNumber + 1 →
          getProductRevision st2 pid j = getProductRevision st pid j) ∧
        (∀ r ∈ st.revisions, r ∈ st2.revisions) := by
  have hfind := getProductByID_ok hcur
  simp only [revertProductToRevision, htar, hcur, bind, Except.bind, createProductRevision,
    hfind]
  refine ⟨_, rfl, _, rfl, rfl, rfl, rfl, rfl, ?_, ?_⟩
  · intro j hj
    exact getProductRevision_append pid j (fun hc => hj hc.2.symm)
  · intro r hr
    exact List.mem_append_left _ hr

/-- The baseline revision row written by `CreateProduct(sampleProduct)`. -/
def sampleRev1 : Revision :=
  { id := genId 0
    productID := "p1"
    revisionNumber := 1
    editorID := some "u1"
    editSummary := some "Initial product version"
    fieldChanges := []
    productData := sampleCreated
    createdAt := 0 }

theorem c3_revert_forward_witness :
    ∃ st2, revertProductToRevision sampleState "p1" 1 (some "u1") "oops" = Except.ok st2 ∧
      ∃ rev, st2.revisions = sampleState.revisions ++ [rev] ∧
        rev.revisionNumber = sampleCreated.currentRevisionNumber + 1 ∧
        rev.productData = sampleRev1.productData ∧
        rev.editSummary = some ("Reverted to revision " ++ toString (1 : Int) ++ ": " ++ "oops") ∧
        rev.fieldChanges = calculateProductDifferences sampleCreated sampleRev1.productData ∧
        (∀ j : Int, j ≠ sampleCreated.currentRevisionNumber + 1 →
          getProductRevision st2 "p1" j = getProductRevision sampleState "p1" j) ∧
        (∀ r ∈ sampleState.revisions, r ∈ st2.revisions) :=
  c3_revert_forward sampleState "p1" 1 (some "u1") "oops" sampleRev1 sampleCreated
    (by decide) (by decide)

/-- A product row with the given id exists exactly when its baseline
revision does (in a well-formed database). -/
theorem any_id_true_of_hasRev {st : DBState} (h : WF st) {pid : String}
    (hr : hasRev st.revisions pid 1) :
    st.products.any (fun q => decide (q.id = pid)) = true := by
  obtain ⟨r, hrmem, hrid, -⟩ := hr
  obtain ⟨q, hq, hqid⟩ := h.revProduct r hrmem
  rw [List.any_eq_true]
  exact ⟨q, hq, by simp [hqid.trans hrid]⟩

theorem any_id_false_of_not_hasRev {st : DBState} (h : WF st) {pid : String}
    (hno : ¬ hasRev st.revisions pid 1) :
    st.products.any (fun q => decide (q.id = pid)) = false := by
  rw [List.any_eq_false]
  intro q hq
  simp only [decide_eq_true_eq]
  intro hqid
  refine hno ?_
  refine (h.revRange q hq 1).mpr ⟨le_refl _, h.currentPos q hq⟩ |>.imp ?_
  intro r hr
  exact ⟨hr.1, hqid ▸ hr.2.1, hr.2.2⟩

/-- C7: creating the initial revision — through `CreateProduct` or through
the apply-accepted-create branch of `ApproveEdit` — fails with a conflict
when a revision 1 already exists for the entity id (the transaction aborts
without returning a new state), and otherwise appends exactly revision
number 1 with zero field changes and stores the product with
`current_revision_number = 1`. -/
theorem c7_initial_revision (st : DBState) (p cd : Product) (eid : String) (h : WF st)
    (hpid : p.id ≠ "") (heid : eid ≠ "") :
    (hasRev st.revisions p.id 1 → createProduct st p = Except.error RepoError.conflict) ∧
    (¬ hasRev st.revisions p.id 1 →
      ∃ st2, createProduct st p = Except.ok st2 ∧
        (∃ rev, st2.revisions = st.revisions ++ [rev] ∧ rev.productID = p.id ∧
          rev.revisionNumber = 1 ∧ rev.fieldChanges = []) ∧
        (∃ q, st2.products = st.products ++ [q] ∧ q.id = p.id ∧
          q.currentRevisionNumber = 1)) ∧
    (hasRev st.revisions eid 1 →
      approveEditCreate st cd eid = Except.error RepoError.conflict) ∧
    (¬ hasRev st.revisions eid 1 →
      ∃ st2, approveEditCreate st cd eid = Except.ok st2 ∧
        (∃ rev, st2.revisions = st.revisions ++ [rev] ∧ rev.productID = eid ∧
          rev.revisionNumber = 1 ∧ rev.fieldChanges = []) ∧
        (∃ q, st2.products = st.products ++ [q] ∧ q.id = eid ∧
          q.currentRevisionNumber = 1)) := by
  refine ⟨?_, ?_, ?_, ?_⟩
  · intro hr
    simp only [createProduct, if_neg hpid, any_id_true_of_hasRev h hr, if_pos]
  · intro hno
    simp only [createProduct, if_neg hpid]
    rw [if_neg (by simp [any_id_false_of_not_hasRev h hno])]
    exact ⟨_, rfl, ⟨_, rfl, rfl, rfl, rfl⟩, ⟨_, rfl, rfl, rfl⟩⟩
  · intro hr
    simp only [approveEditCreate, if_pos heid, any_id_true_of_hasRev h hr, if_pos]
  · intro hno
    simp only [approveEditCreate, if_pos heid]
    rw [if_neg (by simp [any_id_false_of_not_hasRev h hno])]
    exact ⟨_, rfl, ⟨_, rfl, rfl, rfl, rfl⟩, ⟨_, rfl, rfl, rfl⟩⟩

theorem c7_initial_revision_witness :
    createProduct sampleState sampleProduct = Except.error RepoError.conflict ∧
    approveEditCreate sampleState sampleProduct "p1" = Except.error RepoError.conflict :=
  ⟨(c7_initial_revision sampleState sampleProduct sampleProduct "p1"
      (execOps_WF wf_initState [Op.create sampleProduct]) (by decide) (by decide)).1
      (by decide),
    (c7_initial_revision sampleState sampleProduct sampleProduct "p1"
      (execOps_WF wf_initState [Op.create sampleProduct]) (by decide) (by decide)).2.2.1
      (by decide)⟩

theorem addChange_mem {fld o n : String} {c : ProductFieldChange}
    (hc : c ∈ addChange fld o n) :
    o ≠ n ∧ c =
      { id := ""
        revisionID := ""
        fieldName := fld
        oldValue := some o
        newValue := some n
        changeType := if o = "" then "added" else if n = "" then "removed" else "modified" } := by
  unfold addChange at hc
  split at hc
  · simp at hc
  · rename_i hne
    simp only [List.mem_singleton] at hc
    exact ⟨hne, hc⟩

theorem addChange_self (fld o : String) : addChange fld o o = [] := by
  simp [addChange]

theorem changeType_option (o n : String) :
    (if o = "" then "added" else if n = "" then "removed" else "modified")
      = (if (some o : Option String) = some "" then "added"
         else if (some n : Option String) = some "" then "removed" else "modified") := by
  by_cases h1 : o = "" <;> by_cases h2 : n = "" <;> simp [h1, h2]

/-- C4 (amended): every FieldChange produced by the repository-layer diff
`calculateProductDifferences` records differing old/new values and is
classified `added` when the old value is empty, `removed` when the new value
is empty, and `modified` otherwise.  (The service-layer path violates the
classification rule; see the counterexample.) -/
theorem c4_repo_classification (f t : Product) (c : ProductFieldChange)
    (hc : c ∈ calculateProductDifferences f t) :
    c.oldValue ≠ c.newValue ∧
    c.changeType = (if c.oldValue = some "" then "added"
      else if c.newValue = some "" then "removed" else "modified") := by
  unfold calculateProductDifferences at hc
  simp only [List.mem_append] at hc
  rcases hc with
    ((((((((((hc | hc) | hc) | hc) | hc) | hc) | hc) | hc) | hc) | hc) | hc) | hc
  all_goals
    obtain ⟨hne, rfl⟩ := addChange_mem hc
  all_goals
    refine ⟨by simpa using hne, ?_⟩
    dsimp only
    exact changeType_option _ _

/-- The `title` change emitted by the repository diff when the old title is
empty. -/
def titleAddedChange : ProductFieldChange :=
  { id := ""
    revisionID := ""
    fieldName := "title"
    oldValue := some ""
    newValue := some "Beta"
    changeType := "added" }

theorem c4_repo_classification_witness :
    titleAddedChange.oldValue ≠ titleAddedChange.newValue ∧
    titleAddedChange.changeType = (if titleAddedChange.oldValue = some "" then "added"
      else if titleAddedChange.newValue = some "" then "removed" else "modified") :=
  c4_repo_classification { sampleProduct with title := "" }
    { sampleProduct with title := "Beta" } titleAddedChange (by decide)

/-- C4 as stated is false on the service-layer path: a title going from
empty to `"Beta"` is emitted by `calculateProductChanges` as `modified`,
not `added`. -/
theorem c4_counterexample :
    (calculateProductChanges { sampleProduct with title := "" }
      { sampleProduct with title := "Beta" }).map
        (fun c => (c.fieldName, c.oldValue, c.changeType))
      = [("title", some "", "modified")] := by decide

/-- Swaps old/new values and the `added`/`removed` classification of one
FieldChange, the inverse expected by the diff-symmetry property. -/
def swapFieldChange (c : ProductFieldChange) : ProductFieldChange :=
  { c with
    oldValue := c.newValue
    newValue := c.oldValue
    changeType := if c.changeType = "added" then "removed"
      else if c.changeType = "removed" then "added" else c.changeType }

/-- The inverse of a `ProductDiff`: from/to exchanged, every change
swapped.  The summary keeps the same count since swapping preserves the
number of changes. -/
def invertDiff (d : ProductDiff) : ProductDiff :=
  { fromRevision := d.toRevision
    toRevision := d.fromRevision
    changes := d.changes.map swapFieldChange
    summary := toString (d.changes.map swapFieldChange).length ++ " field(s) changed" }

theorem addChange_swap (fld o n : String) :
    (addChange fld o n).map swapFieldChange = addChange fld n o := by
  by_cases he : o = n
  · subst he
    simp [addChange]
  · have hne : ¬ n = o := fun h => he h.symm
    unfold addChange
    rw [if_neg he, if_neg hne]
    simp only [List.map_cons, List.map_nil, swapFieldChange]
    congr 1
    by_cases h1 : o = ""
    · by_cases h2 : n = ""
      · exact absurd (h1.trans h2.symm) he
      · subst h1
        simp [h2]
    · by_cases h2 : n = ""
      · subst h2
        simp [h1]
      · simp [h1, h2]

theorem calculateProductDifferences_swap (A B : Product) :
    (calculateProductDifferences A B).map swapFieldChange
      = calculateProductDifferences B A := by
  unfold calculateProductDifferences
  simp only [List.map_append, addChange_swap]

/-- C5: the repository diff is symmetric — `Diff(B, A)` is `Diff(A, B)` with
old/new values swapped and `added`/`removed` exchanged (`modified` stays) —
and `CompareProductRevisions` is not normalized, so comparing `(b, a)` is
exactly the inverse of comparing `(a, b)`, including on lookup failures. -/
theorem c5_diff_symmetry :
    (∀ A B : Product,
      calculateProductDifferences B A
        = (calculateProductDifferences A B).map swapFieldChange) ∧
    (∀ (st : DBState) (pid : String) (a b : Int),
      compareProductRevisions st pid b a
        = (compareProductRevisions st pid a b).map invertDiff) := by
  constructor
  · intro A B
    exact (calculateProductDifferences_swap A B).symm
  · intro st pid a b
    unfold compareProductRevisions getProductRevision
    cases hfa : st.revisions.find? (fun r => decide (r.productID = pid ∧ r.revisionNumber = a)) with
    | none =>
      cases hfb : st.revisions.find?
          (fun r => decide (r.productID = pid ∧ r.revisionNumber = b)) with
      | none => simp [hfa, hfb, bind, Except.bind, Except.map]
      | some rb => simp [hfa, hfb, bind, Except.bind, Except.map]
    | some ra =>
      cases hfb : st.revisions.find?
          (fun r => decide (r.productID = pid ∧ r.revisionNumber = b)) with
      | none => simp [hfa, hfb, bind, Except.bind, Except.map]
      | some rb =>
        simp only [hfa, hfb, bind, Except.bind, Except.map, invertDiff]
        rw [calculateProductDifferences_swap]

theorem formatScore_ne_empty (q : ℚ) : formatScore q ≠ "" := by
  unfold formatScore
  intro h
  have hlen := congrArg String.length h
  have hdot : String.length "." = 1 := rfl
  have hemp : String.length "" = 0 := rfl
  simp only [String.length_append, hdot, hemp] at hlen
  omega

theorem addChange_fieldName {fld o n : String} {c : ProductFieldChange}
    (hc : c ∈ addChange fld o n) : c.fieldName = fld := by
  obtain ⟨-, rfl⟩ := addChange_mem hc
  rfl

/-- C6 (amended): on the repository diff path each score field is
independent: whenever one score pair's fixed 2-decimal renderings agree —
however the raw values or any other field differ — the diff contains no
FieldChange for that score field.  (The service-layer path compares raw
values and does emit a change; see the counterexample.) -/
theorem c6_display_equal_scores (f t : Product) :
    (formatScore f.securityScore = formatScore t.securityScore →
      ∀ c ∈ calculateProductDifferences f t, c.fieldName ≠ "security_score") ∧
    (formatScore f.uxScore = formatScore t.uxScore →
      ∀ c ∈ calculateProductDifferences f t, c.fieldName ≠ "ux_score") ∧
    (formatScore f.decentScore = formatScore t.decentScore →
      ∀ c ∈ calculateProductDifferences f t, c.fieldName ≠ "decent_score") ∧
    (formatScore f.vibesScore = formatScore t.vibesScore →
      ∀ c ∈ calculateProductDifferences f t, c.fieldName ≠ "vibes_score") := by
  refine ⟨?_, ?_, ?_, ?_⟩
  all_goals
    intro hfmt c hc heq
    unfold calculateProductDifferences at hc
    simp only [List.mem_append] at hc
    rcases hc with
      ((((((((((hc | hc) | hc) | hc) | hc) | hc) | hc) | hc) | hc) | hc) | hc) | hc
    all_goals first
      | (rw [hfmt, addChange_self] at hc
         exact absurd hc (List.not_mem_nil c))
      | (rw [addChange_fieldName hc] at heq
         exact absurd heq (by decide))

/-- A proposed update that changes the title and perturbs the security score
below display precision. -/
def sampleRetitled : Product :=
  { sampleProduct with title := "Beta", securityScore := mkRat 501 1000 }

/-- The `title` change emitted by the repository diff in the witness run. -/
def titleModifiedChange : ProductFieldChange :=
  { id := ""
    revisionID := ""
    fieldName := "title"
    oldValue := some "Alpha"
    newValue := some "Beta"
    changeType := "modified" }

theorem c6_display_equal_scores_witness :
    titleModifiedChange.fieldName ≠ "security_score" :=
  (c6_display_equal_scores sampleProduct sampleRetitled).1 (by decide)
    titleModifiedChange (by decide)

/-- C6 as stated is false on the service-layer path: two security scores
that render identically as `"0.50"` but differ as raw values produce a
`security_score` FieldChange (with equal old and new display values) in
`calculateProductChanges`, while the repository diff correctly produces
none. -/
theorem c6_counterexample :
    sampleProduct.securityScore ≠ sampleRetitled.securityScore ∧
    formatScore sampleProduct.securityScore = formatScore sampleRetitled.securityScore ∧
    (calculateProductChanges sampleProduct { sampleRetitled with title := "Alpha" }).map
      (fun c => (c.fieldName, c.oldValue, c.newValue, c.changeType))
      = [("security_score", some "0.50", some "0.50", "modified")] ∧
    calculateProductDifferences sampleProduct { sampleRetitled with title := "Alpha" } = [] := by
  refine ⟨by decide, by decide, by decide, by decide⟩

/-- C8: for every caller-requested limit, the recent-edits feed served by
the handler is the newest-first prefix of the system-wide revision log —
pairwise ordered by recency, containing only revisions at least as recent
as everything it omits — and its length never exceeds the hard maximum 200,
whatever limit the caller requested. -/
theorem c8_recent_edits (st : DBState) (l : Option Int) :
    (handlerGetRecentEdits st l).length ≤ 200 ∧
    handlerGetRecentEdits st l = (recentRevisions st (handlerLimit l)).map toSummary ∧
    (recentRevisions st (handlerLimit l)).Pairwise revNewer ∧
    (∀ r ∈ st.revisions, r ∉ recentRevisions st (handlerLimit l) →
      ∀ r2 ∈ recentRevisions st (handlerLimit l), r.createdAt ≤ r2.createdAt) := by
  have hk : (handlerLimit l).toNat ≤ 200 := by
    rcases l with - | v
    · simp [handlerLimit]
    · unfold handlerLimit
      dsimp only
      by_cases h : 0 < v ∧ v ≤ 200
      · rw [if_pos h]
        omega
      · rw [if_neg h]
        simp
  have hsort : (st.revisions.insertionSort revNewer).Pairwise revNewer :=
    List.sorted_insertionSort revNewer st.revisions
  refine ⟨?_, rfl, ?_, ?_⟩
  · calc (handlerGetRecentEdits st l).length
        = ((st.revisions.insertionSort revNewer).take (handlerLimit l).toNat).length := by
          simp [handlerGetRecentEdits, getRecentEdits, recentRevisions]
      _ ≤ (handlerLimit l).toNat := by
          rw [List.length_take]
          omega
      _ ≤ 200 := hk
  · exact hsort.sublist (List.take_sublist _ _)
  · intro r hr hnot r2 hr2
    have hrs : r ∈ st.revisions.insertionSort revNewer :=
      (List.perm_insertionSort revNewer st.revisions).mem_iff.mpr hr
    rw [← List.take_append_drop (handlerLimit l).toNat
      (st.revisions.insertionSort revNewer)] at hrs hsort
    rcases List.mem_append.mp hrs with hrtake | hrdrop
    · exact absurd hrtake hnot
    · exact (List.pairwise_append.mp hsort).2.2 r2 hr2 r hrdrop

theorem c8_recent_edits_witness :
    (handlerGetRecentEdits sampleState (some 500)).length ≤ 200 :=
  (c8_recent_edits sampleState (some 500)).1

/-- The observable content of a FieldChange: field name, old/new values and
classification (row ids are storage artifacts). -/
def projFieldChange (c : ProductFieldChange) :
    String × Option String × Option String × String :=
  (c.fieldName, c.oldValue, c.newValue, c.changeType)

theorem map_proj_stampIds (l : List ProductFieldChange) (k : Nat) :
    (stampIds l k).map projFieldChange = l.map projFieldChange := by
  induction l generalizing k with
  | nil => rfl
  | cons c rest ih => simp [stampIds, projFieldChange, ih]

theorem proj_block_text (fld o n : String) (h : o = n ∨ (o ≠ "" ∧ n ≠ "")) :
    ((if o ≠ n then [serviceChange fld o n] else []).map projFieldChange)
      = (addChange fld o n).map projFieldChange := by
  by_cases he : o = n
  · simp [he, addChange]
  · rcases h with h | ⟨h1, h2⟩
    · exact absurd h he
    · rw [if_pos he]
      unfold addChange
      rw [if_neg he]
      simp [serviceChange, projFieldChange, h1, h2]

theorem proj_block_score (fld : String) (x y : ℚ)
    (h : x = y ↔ formatScore x = formatScore y) :
    ((if x ≠ y then [serviceChange fld (formatScore x) (formatScore y)]
        else []).map projFieldChange)
      = (addChange fld (formatScore x) (formatScore y)).map projFieldChange := by
  by_cases he : x = y
  · subst he
    simp [addChange]
  · have hfs : formatScore x ≠ formatScore y := fun hf => he (h.mpr hf)
    rw [if_pos he]
    unfold addChange
    rw [if_neg hfs]
    simp [serviceChange, projFieldChange, formatScore_ne_empty]

/-- C10 (amended): the service-layer and repository-layer diffs agree on
field names, old/new values and classifications exactly on snapshots where
the fields the service layer ignores (`is_verified`, `approved`,
`analytics_list`) are unchanged, every differing text field is non-empty on
both sides, and each score pair differs in raw value exactly when its
2-decimal renderings differ.  Outside that region they disagree (see the
counterexample). -/
theorem c10_diffs_agree (oldP newP : Product)
    (hv : oldP.isVerified = newP.isVerified)
    (ha : oldP.approved = newP.approved)
    (hl : oldP.analyticsList = newP.analyticsList)
    (ht1 : oldP.title = newP.title ∨ (oldP.title ≠ "" ∧ newP.title ≠ ""))
    (ht2 : oldP.shortDesc = newP.shortDesc ∨ (oldP.shortDesc ≠ "" ∧ newP.shortDesc ≠ ""))
    (ht3 : oldP.longDesc = newP.longDesc ∨ (oldP.longDesc ≠ "" ∧ newP.longDesc ≠ ""))
    (ht4 : oldP.logoURL = newP.logoURL ∨ (oldP.logoURL ≠ "" ∧ newP.logoURL ≠ ""))
    (ht5 : oldP.markdownContent = newP.markdownContent ∨
      (oldP.markdownContent ≠ "" ∧ newP.markdownContent ≠ ""))
    (hs1 : oldP.securityScore = newP.securityScore ↔
      formatScore oldP.securityScore = formatScore newP.securityScore)
    (hs2 : oldP.uxScore = newP.uxScore ↔
      formatScore oldP.uxScore = formatScore newP.uxScore)
    (hs3 : oldP.decentScore = newP.decentScore ↔
      formatScore oldP.decentScore = formatScore newP.decentScore)
    (hs4 : oldP.vibesScore = newP.vibesScore ↔
      formatScore oldP.vibesScore = formatScore newP.vibesScore) :
    (calculateProductChanges oldP newP).map projFieldChange
      = (calculateProductDifferences oldP newP).map projFieldChange := by
  unfold calculateProductChanges calculateProductDifferences
  rw [map_proj_stampIds]
  simp only [List.map_append]
  rw [proj_block_text _ _ _ ht1, proj_block_text _ _ _ ht2, proj_block_text _ _ _ ht3,
    proj_block_text _ _ _ ht4, proj_block_text _ _ _ ht5,
    proj_block_score _ _ _ hs1, proj_block_score _ _ _ hs2,
    proj_block_score _ _ _ hs3, proj_block_score _ _ _ hs4]
  rw [hv, ha, hl]
  simp [addChange_self]

theorem c10_diffs_agree_witness :
    (calculateProductChanges sampleProduct { sampleProduct with title := "Beta" }).map
        projFieldChange
      = (calculateProductDifferences sampleProduct
          { sampleProduct with title := "Beta" }).map projFieldChange :=
  c10_diffs_agree sampleProduct { sampleProduct with title := "Beta" }
    (by decide) (by decide) (by decide) (by decide) (by decide) (by decide) (by decide)
    (by decide) (by decide) (by decide) (by decide) (by decide)

/-- C10 as stated is false: a change of `is_verified` alone is reported by
the repository diff but invisible to the service-layer diff. -/
theorem c10_counterexample :
    (calculateProductChanges sampleProduct { sampleProduct with isVerified := true }).map
      projFieldChange = [] ∧
    (calculateProductDifferences sampleProduct
        { sampleProduct with isVerified := true }).map projFieldChange
      = [("is_verified", some "false", some "true", "modified")] := by
  refine ⟨by decide, by decide⟩

/-!
Concurrency model for two racing `CreateProductRevision` calls.  Each
transaction is reduced to its two visible database interactions: the
`SELECT current_revision_number` (its read point) and the atomic commit of
`INSERT INTO product_revisions` + `UPDATE products` (its commit point).
Under read committed, a commit whose revision number is already present
fails on the migration's `UNIQUE(product_id, revision_number)` constraint
and the transaction rolls back.
-/

/-- The caller-supplied arguments of one `CreateProductRevision` call. -/
structure TxParams where
  editorID : Option String
  editSummary : Option String
  changes : List ProductFieldChange
  newData : Product

/-- One in-flight transaction: the revision number its `SELECT` returned (if
it has read yet) and its outcome — `some (some n)`: committed revision `n`;
`some none`: failed on the unique constraint. -/
structure TxView where
  readRev : Option Int
  outcome : Option (Option Int)

/-- The shared database plus the two transactions' views. -/
structure RaceState where
  db : DBState
  txA : TxView
  txB : TxView

/-- The events of the race, at the granularity that matters: each
transaction's read point and commit point. -/
inductive RaceEvent where
  | readA : RaceEvent
  | commitA : RaceEvent
  | readB : RaceEvent
  | commitB : RaceEvent
deriving DecidableEq

/-- The committed `current_revision_number` visible to a read. -/
def currentRevOf (db : DBState) (pid : String) : Int :=
  match db.products.find? (fun q => decide (q.id = pid)) with
  | some p => p.currentRevisionNumber
  | none => 0

/-- The write half of `CreateProductRevision` with an already-computed
revision number `n`: append the revision row and update the product row
(same statements as in the sequential embedding). -/
def commitRevision (db : DBState) (pid : String) (p : TxParams) (n : Int) : DBState :=
  { products := db.products.map
      (fun q => if q.id = pid then revisionUpdateRow q p.newData n p.editorID db.clock else q)
    revisions := db.revisions ++
      [{ id := genId db.clock
         productID := pid
         revisionNumber := n
         editorID := p.editorID
         editSummary := p.editSummary
         fieldChanges := p.changes
         productData := p.newData
         createdAt := db.clock }]
    clock := db.clock + 1 }

/-- One step of the race.  A commit point inserts `read + 1`; if that
`(product_id, revision_number)` pair already exists the unique constraint
aborts the transaction and the database is unchanged. -/
def raceStep (pid : String) (pa pb : TxParams) (s : RaceState) : RaceEvent → RaceState
  | RaceEvent.readA => { s with txA := { s.txA with readRev := some (currentRevOf s.db pid) } }
  | RaceEvent.readB => { s with txB := { s.txB with readRev := some (currentRevOf s.db pid) } }
  | RaceEvent.commitA =>
    match s.txA.readRev with
    | none => s
    | some n =>
      if hasRev s.db.revisions pid (n + 1) then
        { s with txA := { s.txA with outcome := some none } }
      else
        { s with db := commitRevision s.db pid pa (n + 1)
                 txA := { s.txA with outcome := some (some (n + 1)) } }
  | RaceEvent.commitB =>
    match s.txB.readRev with
    | none => s
    | some n =>
      if hasRev s.db.revisions pid (n + 1) then
        { s with txB := { s.txB with outcome := some none } }
      else
        { s with db := commitRevision s.db pid pb (n + 1)
                 txB := { s.txB with outcome := some (some (n + 1)) } }

/-- All interleavings of the two transactions in which each read precedes
its own commit. -/
def raceSchedules : List (List RaceEvent) :=
  [[RaceEvent.readA, RaceEvent.commitA, RaceEvent.readB, RaceEvent.commitB],
   [RaceEvent.readA, RaceEvent.readB, RaceEvent.commitA, RaceEvent.commitB],
   [RaceEvent.readA, RaceEvent.readB, RaceEvent.commitB, RaceEvent.commitA],
   [RaceEvent.readB, RaceEvent.readA, RaceEvent.commitA, RaceEvent.commitB],
   [RaceEvent.readB, RaceEvent.readA, RaceEvent.commitB, RaceEvent.commitA],
   [RaceEvent.readB, RaceEvent.commitB, RaceEvent.readA, RaceEvent.commitA]]

theorem currentRevOf_eq {st : DBState} {pid : String} {cur : Product}
    (hfind : st.products.find? (fun q => decide (q.id = pid)) = some cur) :
    currentRevOf st pid = cur.currentRevisionNumber := by
  unfold currentRevOf
  rw [hfind]

theorem find?_map_idpres {l : List Product} {pid : String} (f : Product → Product)
    (hfid : ∀ q, (f q).id = q.id) :
    (l.map (fun q => if q.id = pid then f q else q)).find? (fun q => decide (q.id = pid))
      = (l.find? (fun q => decide (q.id = pid))).map
          (fun q => if q.id = pid then f q else q) := by
  induction l with
  | nil => rfl
  | cons a l ih =>
    by_cases ha : a.id = pid
    · have hfa : (f a).id = pid := by rw [hfid]; exact ha
      simp [List.find?_cons, ha, hfa]
    · have hga : ¬((if a.id = pid then f a else a).id = pid) := by rw [if_neg ha]; exact ha
      simp [List.find?_cons, ha, hga, ih]

theorem find?_commitRevision {st : DBState} {pid : String} {cur : Product}
    (p : TxParams) (n : Int)
    (hfind : st.products.find? (fun q => decide (q.id = pid)) = some cur) :
    (commitRevision st pid p n).products.find? (fun q => decide (q.id = pid))
      = some (revisionUpdateRow cur p.newData n p.editorID st.clock) := by
  obtain ⟨-, hcid⟩ := find?_product hfind
  unfold commitRevision
  dsimp only
  rw [find?_map_idpres (fun q => revisionUpdateRow q p.newData n p.editorID st.clock)
    (fun q => rfl), hfind]
  simp [Option.map, hcid]

theorem not_hasRev_gt {st : DBState} {pid : String} {cur : Product} (h : WF st)
    (hfind : st.products.find? (fun q => decide (q.id = pid)) = some cur)
    {m : Int} (hm : cur.currentRevisionNumber < m) : ¬ hasRev st.revisions pid m := by
  obtain ⟨hmem, hcid⟩ := find?_product hfind
  rintro ⟨r, hr, h1, h2⟩
  have := (h.revRange cur hmem m).mp ⟨r, hr, by rw [h1, hcid], h2⟩
  omega

theorem not_hasRev_commit_gt {st : DBState} {pid : String} {cur : Product} (h : WF st)
    (hfind : st.products.find? (fun q => decide (q.id = pid)) = some cur)
    (p : TxParams) {n m : Int} (hn : cur.currentRevisionNumber < n) (hm : n < m) :
    ¬ hasRev (commitRevision st pid p n).revisions pid m := by
  unfold commitRevision
  dsimp only
  rw [hasRev_append]
  rintro (hold | ⟨-, h2⟩)
  · exact not_hasRev_gt h hfind (by omega) hold
  · dsimp at h2
    omega

theorem hasRev_commit_self {st : DBState} (pid : String) (p : TxParams) (n : Int) :
    hasRev (commitRevision st pid p n).revisions pid n := by
  unfold commitRevision
  dsimp only
  exact hasRev_append.mpr (Or.inr ⟨rfl, rfl⟩)

theorem WF_commitRevision {st : DBState} {pid : String} {cur : Product} (h : WF st)
    (hfind : st.products.find? (fun q => decide (q.id = pid)) = some cur)
    (p : TxParams) : WF (commitRevision st pid p (cur.currentRevisionNumber + 1)) := by
  unfold commitRevision
  refine WF_bump h hfind ?_ ?_ ?_ ?_ <;> intros <;> rfl

/-- The final state of a race between two `CreateProductRevision` calls
executed under a given interleaving. -/
def raceResult (st : DBState) (pid : String) (pa pb : TxParams)
    (sched : List RaceEvent) : RaceState :=
  sched.foldl (raceStep pid pa pb)
    { db := st
      txA := { readRev := none, outcome := none }
      txB := { readRev := none, outcome := none } }

/-- C9: for a product at revision `N`, two concurrent
`CreateProductRevision` calls, in every interleaving, end with exactly one
transaction committing revision `N + 1` and the other either serialized to
`N + 2` or failing on the unique constraint — and the stored
`(product_id, revision_number)` pairs stay unique. -/
theorem c9_concurrent_revisions (st : DBState) (pid : String) (cur : Product)
    (h : WF st) (hfind : st.products.find? (fun q => decide (q.id = pid)) = some cur)
    (pa pb : TxParams) (sched : List RaceEvent) (hs : sched ∈ raceSchedules) :
    (((raceResult st pid pa pb sched).txA.outcome
        = some (some (cur.currentRevisionNumber + 1)) ∧
      ((raceResult st pid pa pb sched).txB.outcome
          = some (some (cur.currentRevisionNumber + 1 + 1)) ∨
        (raceResult st pid pa pb sched).txB.outcome = some none)) ∨
    ((raceResult st pid pa pb sched).txB.outcome
        = some (some (cur.currentRevisionNumber + 1)) ∧
      ((raceResult st pid pa pb sched).txA.outcome
          = some (some (cur.currentRevisionNumber + 1 + 1)) ∨
        (raceResult st pid pa pb sched).txA.outcome = some none))) ∧
    (raceResult st pid pa pb sched).db.revisions.Pairwise
      (fun a b => a.productID = b.productID → a.revisionNumber ≠ b.revisionNumber) := by
  have hcur0 : currentRevOf st pid = cur.currentRevisionNumber := currentRevOf_eq hfind
  have hno1 : ¬ hasRev st.revisions pid (cur.currentRevisionNumber + 1) :=
    not_hasRev_gt h hfind (by omega)
  simp only [raceSchedules, List.mem_cons, List.not_mem_nil, or_false] at hs
  rcases hs with rfl | rfl | rfl | rfl | rfl | rfl
  · -- A reads, A commits, B reads, B commits: serialized, B lands on N + 2.
    unfold raceResult
    simp only [List.foldl, raceStep]
    try dsimp only
    rw [hcur0, if_neg hno1]
    try dsimp only
    rw [currentRevOf_eq (find?_commitRevision pa _ hfind)]
    simp only [revisionUpdateRow]
    try dsimp only
    rw [if_neg (not_hasRev_commit_gt h hfind pa (by omega) (by omega))]
    exact ⟨Or.inl ⟨rfl, Or.inl rfl⟩,
      (WF_commitRevision (WF_commitRevision h hfind pa)
        (find?_commitRevision pa _ hfind) pb).revUnique⟩
  · -- Both read N, A commits N + 1, B hits the unique constraint.
    unfold raceResult
    simp only [List.foldl, raceStep]
    try dsimp only
    rw [hcur0, if_neg hno1]
    try dsimp only
    rw [if_pos (hasRev_commit_self pid pa _)]
    exact ⟨Or.inl ⟨rfl, Or.inr rfl⟩, (WF_commitRevision h hfind pa).revUnique⟩
  · -- Both read N, B commits N + 1, A hits the unique constraint.
    unfold raceResult
    simp only [List.foldl, raceStep]
    try dsimp only
    rw [hcur0, if_neg hno1]
    try dsimp only
    rw [if_pos (hasRev_commit_self pid pb _)]
    exact ⟨Or.inr ⟨rfl, Or.inr rfl⟩, (WF_commitRevision h hfind pb).revUnique⟩
  · -- Reads in the other order, A commits first, B fails.
    unfold raceResult
    simp only [List.foldl, raceStep]
    try dsimp only
    rw [hcur0, if_neg hno1]
    try dsimp only
    rw [if_pos (hasRev_commit_self pid pa _)]
    exact ⟨Or.inl ⟨rfl, Or.inr rfl⟩, (WF_commitRevision h hfind pa).revUnique⟩
  · -- Reads in the other order, B commits first, A fails.
    unfold raceResult
    simp only [List.foldl, raceStep]
    try dsimp only
    rw [hcur0, if_neg hno1]
    try dsimp only
    rw [if_pos (hasRev_commit_self pid pb _)]
    exact ⟨Or.inr ⟨rfl, Or.inr rfl⟩, (WF_commitRevision h hfind pb).revUnique⟩
  · -- B reads, B commits, A reads, A commits: serialized, A lands on N + 2.
    unfold raceResult
    simp only [List.foldl, raceStep]
    try dsimp only
    rw [hcur0, if_neg hno1]
    try dsimp only
    rw [currentRevOf_eq (find?_commitRevision pb _ hfind)]
    simp only [revisionUpdateRow]
    try dsimp only
    rw [if_neg (not_hasRev_commit_gt h hfind pb (by omega) (by omega))]
    exact ⟨Or.inr ⟨rfl, Or.inl rfl⟩,
      (WF_commitRevision (WF_commitRevision h hfind pb)
        (find?_commitRevision pb _ hfind) pa).revUnique⟩

/-- Arguments of the first racing transaction in the witness run. -/
def sampleTxA : TxParams :=
  { editorID := some "u1"
    editSummary := some "editA"
    changes := []
    newData := sampleCreated }

/-- Arguments of the second racing transaction in the witness run. -/
def sampleTxB : TxParams :=
  { editorID := some "u2"
    editSummary := some "editB"
    changes := []
    newData := { sampleCreated with title := "Gamma" } }

/-- The read-read-commit-commit interleaving of the witness run. -/
def sampleRace : List RaceEvent :=
  [RaceEvent.readA, RaceEvent.readB, RaceEvent.commitA, RaceEvent.commitB]

theorem c9_concurrent_revisions_witness :
    (((raceResult sampleState "p1" sampleTxA sampleTxB sampleRace).txA.outcome
        = some (some (sampleCreated.currentRevisionNumber + 1)) ∧
      ((raceResult sampleState "p1" sampleTxA sampleTxB sampleRace).txB.outcome
          = some (some (sampleCreated.currentRevisionNumber + 1 + 1)) ∨
        (raceResult sampleState "p1" sampleTxA sampleTxB sampleRace).txB.outcome
          = some none)) ∨
    ((raceResult sampleState "p1" sampleTxA sampleTxB sampleRace).txB.outcome
        = some (some (sampleCreated.currentRevisionNumber + 1)) ∧
      ((raceResult sampleState "p1" sampleTxA sampleTxB sampleRace).txA.outcome
          = some (some (sampleCreated.currentRevisionNumber + 1 + 1)) ∨
        (raceResult sampleState "p1" sampleTxA sampleTxB sampleRace).txA.outcome
          = some none))) ∧
    (raceResult sampleState "p1" sampleTxA sampleTxB sampleRace).db.revisions.Pairwise
      (fun a b => a.productID = b.productID → a.revisionNumber ≠ b.revisionNumber) :=
  c9_concurrent_revisions sampleState "p1" sampleCreated
    (execOps_WF wf_initState [Op.create sampleProduct]) (by decide)
    sampleTxA sampleTxB sampleRace (by decide)

end EthAppList
